import Mathlib

/-!
Verification of the Rubik's-cube model (`src/rubiks_cube/models/cube_model.py`).

The cube state is a mapping from lattice positions `(x, y, z)` with
`x, y, z ∈ {-1, 0, 1}` (origin excluded) to cubies; every cubie carries a
mapping from the six oriented face labels to an optional color.  The six
colors are the integers `0..5` exactly as in the source.

The Python dict `cubies` is embedded as a total function `Pos → Cubie`;
all statements about the mapping are made on (or imply equality on) the 26
lattice positions the dict actually holds, listed in `allPositions`.
-/

/-- Positions are integer triples, exactly the keys of the Python dict. -/
abbrev Pos := Int × Int × Int

/-- Colors `WHITE..GREEN` are integers 0..5 (module-level constants). -/
def WHITE : Nat := 0

def YELLOW : Nat := 1

def RED : Nat := 2

def ORANGE : Nat := 3

def BLUE : Nat := 4

def GREEN : Nat := 5

/-- The six oriented face labels of a cubie: the keys `x+`, `x-`, `y+`,
`y-`, `z+`, `z-` of the Python `colors` dict. -/
inductive FaceLabel where
  | xp | xm | yp | ym | zp | zm
  deriving DecidableEq, Repr, Fintype

/-- The label keys in the insertion order of the Python `colors` /
`face_to_axis` dicts. -/
def labels : List FaceLabel := [.xp, .xm, .yp, .ym, .zp, .zm]

/-- The axis of a label (`face_to_axis` first component): x=0, y=1, z=2. -/
def labelAxis : FaceLabel → Nat
  | .xp => 0 | .xm => 0 | .yp => 1 | .ym => 1 | .zp => 2 | .zm => 2

/-- The sign of a label (`face_to_axis` second component). -/
def labelSign : FaceLabel → Int
  | .xp => 1 | .xm => -1 | .yp => 1 | .ym => -1 | .zp => 1 | .zm => -1

/-- The label with a given axis and sign: the `axis_to_face` reverse map,
and also the `face_key` string built by `is_solved`/`get_face_colors`
(`'+' if sign > 0 else '-'`). -/
def labelOf (axis : Nat) (sign : Int) : FaceLabel :=
  if axis = 0 then (if sign > 0 then .xp else .xm)
  else if axis = 1 then (if sign > 0 then .yp else .ym)
  else (if sign > 0 then .zp else .zm)

/-- Coordinate `i` of a position (`pos[axis]` in Python, axes x=0,y=1,z=2). -/
def getC (p : Pos) (i : Nat) : Int :=
  if i = 0 then p.1 else if i = 1 then p.2.1 else p.2.2

/-- Replace coordinate `i` of a position (`new_pos[a] = v`). -/
def setC (p : Pos) (i : Nat) (v : Int) : Pos :=
  if i = 0 then (v, p.2.1, p.2.2)
  else if i = 1 then (p.1, v, p.2.2)
  else (p.1, p.2.1, v)

/-- A cubie: its position coordinates and its label-to-optional-color map
(`None` means not visible), as in the Python `Cubie` class. -/
@[ext]
structure Cubie where
  x : Int
  y : Int
  z : Int
  colors : FaceLabel → Option Nat

/-- `Cubie.__init__`: a cubie at `(x, y, z)` with the solved-state colors
on its outward faces and `None` elsewhere. -/
def Cubie.init (x y z : Int) : Cubie where
  x := x
  y := y
  z := z
  colors := fun l =>
    match l with
    | .xp => if x = 1 then some RED else none
    | .xm => if x = -1 then some ORANGE else none
    | .yp => if y = 1 then some BLUE else none
    | .ym => if y = -1 then some GREEN else none
    | .zp => if z = 1 then some WHITE else none
    | .zm => if z = -1 then some YELLOW else none

/-- The `FACE_AXES` table: face id to `(axis, sign)`; `none` models the
`KeyError` a lookup of any other key raises. -/
def FACE_AXES (face : Int) : Option (Nat × Int) :=
  if face = 0 then some (2, 1)
  else if face = 1 then some (2, -1)
  else if face = 2 then some (0, 1)
  else if face = 3 then some (0, -1)
  else if face = 4 then some (1, 1)
  else if face = 5 then some (1, -1)
  else none

/-- The six valid face ids. -/
def validFaces : List Int := [0, 1, 2, 3, 4, 5]

/-- `other_axes = [i for i in range(3) if i != axis]`, in ascending order. -/
def otherAxes (axis : Nat) : Nat × Nat :=
  if axis = 0 then (1, 2) else if axis = 1 then (0, 2) else (0, 1)

/-- The 26 lattice positions, in the order of the `__init__` triple loop
(`x`, `y`, `z` each over `-1, 0, 1`, skipping the origin). -/
def allPositions : List Pos :=
  ([-1, 0, 1] : List Int).flatMap fun x =>
    ([-1, 0, 1] : List Int).flatMap fun y =>
      ([-1, 0, 1] : List Int).filterMap fun z =>
        if x = 0 ∧ y = 0 ∧ z = 0 then none else some (x, y, z)

/-- The cube model: the position-to-cubie mapping, the `animating` flag and
the move history, as in the Python `CubeModel`. -/
structure CubeModel where
  cubies : Pos → Cubie
  animating : Bool
  history : List (Int × Int)

/-- `CubeModel.__init__`: the solved cube — every position holds the
solved-color cubie for that position, `animating` is false, history empty. -/
def CubeModel.initial : CubeModel where
  cubies := fun p => Cubie.init p.1 p.2.1 p.2.2
  animating := false
  history := []

/-- The face-label permutation built by `_rotate_cubie_colors`
(`face_mapping`): labels on the rotation axis are fixed; the other four
move per the source's case analysis on `face_axis == a1` and
`direction == 1`. -/
def faceMapping (rotation_axis : Nat) (direction : Int) (l : FaceLabel) : FaceLabel :=
  let fa := labelAxis l
  let fs := labelSign l
  if fa = rotation_axis then l
  else
    let a1 := (otherAxes rotation_axis).1
    let a2 := (otherAxes rotation_axis).2
    if fa = a1 then
      if direction = 1 then labelOf a2 fs else labelOf a2 (-fs)
    else
      if direction = 1 then labelOf a1 (-fs) else labelOf a1 fs

/-- Inverse of `faceMapping` (the two direction branches swapped); used to
read the rebuilt dict: the label that `faceMapping` sends to `l`. -/
def faceMappingInv (rotation_axis : Nat) (direction : Int) (l : FaceLabel) : FaceLabel :=
  let fa := labelAxis l
  let fs := labelSign l
  if fa = rotation_axis then l
  else
    let a1 := (otherAxes rotation_axis).1
    let a2 := (otherAxes rotation_axis).2
    if fa = a1 then
      if direction = 1 then labelOf a2 (-fs) else labelOf a2 fs
    else
      if direction = 1 then labelOf a1 fs else labelOf a1 (-fs)

/-- `_rotate_cubie_colors`: starting from the freshly constructed
`new_cubie`, copy every non-`None` color of `old_cubie` to the label given
by `face_mapping`.  The loop over the `face_mapping` items is the fold over
the six labels. -/
def rotate_cubie_colors (old_cubie new_cubie : Cubie) (rotation_axis : Nat)
    (direction : Int) : Cubie :=
  { new_cubie with
    colors := labels.foldl
      (fun acc of =>
        if (old_cubie.colors of).isSome then
          fun l2 => if l2 = faceMapping rotation_axis direction of then
            old_cubie.colors of else acc l2
        else acc)
      new_cubie.colors }

/-- The source's forward position map for cubies on the rotated face:
`new_pos[a1] = -pos[a2], new_pos[a2] = pos[a1]` when `effective_dir == 1`,
else `new_pos[a1] = pos[a2], new_pos[a2] = -pos[a1]`. -/
def rotPos (axis : Nat) (eff : Int) (p : Pos) : Pos :=
  let a1 := (otherAxes axis).1
  let a2 := (otherAxes axis).2
  if eff = 1 then setC (setC p a1 (-(getC p a2))) a2 (getC p a1)
  else setC (setC p a1 (getC p a2)) a2 (-(getC p a1))

/-- Inverse of `rotPos` (the two branches swapped): the position whose
image under the source's forward map is `p`. -/
def rotPosInv (axis : Nat) (eff : Int) (p : Pos) : Pos :=
  let a1 := (otherAxes axis).1
  let a2 := (otherAxes axis).2
  if eff = 1 then setC (setC p a1 (getC p a2)) a2 (-(getC p a1))
  else setC (setC p a1 (-(getC p a2))) a2 (getC p a1)

/-- One face rotation acting on the position-to-cubie mapping.  The source
rebuilds the dict by inserting, for every cubie on the face plane, a fresh
`Cubie` at its `rotPos` image with colors remapped by
`_rotate_cubie_colors`, and keeping all off-plane entries.  Since `rotPos`
is a bijection of the face plane, the rebuilt dict holds, at every plane
position `q`, the transformed cubie taken from the unique source position
`rotPosInv q`; that pointwise reading is stated here. -/
def rotStep (axis : Nat) (sign eff : Int) (cub : Pos → Cubie) : Pos → Cubie :=
  fun q =>
    if getC q axis = sign then
      rotate_cubie_colors (cub (rotPosInv axis eff q))
        (Cubie.init q.1 q.2.1 q.2.2) axis eff
    else cub q

/-- `CubeModel.rotate_face`.  Returns the post-call model and `some b` for
a Python return of `b`, or `none` when the call raises (`KeyError` from the
`FACE_AXES[face]` lookup).  Mirrors the source's order: the `animating`
gate first, then the history append, then the table lookup. -/
def rotate_face (m : CubeModel) (face : Int) (direction : Int := 1) :
    CubeModel × Option Bool :=
  if m.animating then (m, some false)
  else
    match FACE_AXES face with
    | none => ({ m with history := m.history ++ [(face, direction)] }, none)
    | some (axis, sign) =>
      ({ m with
          history := m.history ++ [(face, direction)],
          cubies := rotStep axis sign (direction * sign) m.cubies }, some true)

/-- The model after a successful (or animating-gated) `rotate_face` call. -/
def rf (m : CubeModel) (face direction : Int) : CubeModel :=
  (rotate_face m face direction).1

/-- A sequence of `rotate_face` calls. -/
def applyMoves (m : CubeModel) (moves : List (Int × Int)) : CubeModel :=
  moves.foldl (fun s mv => rf s mv.1 mv.2) m

/-- `CubeModel.get_solution`: the history reversed with directions negated. -/
def get_solution (m : CubeModel) : List (Int × Int) :=
  (m.history.reverse).map fun mv => (mv.1, -mv.2)

/-- `CubeModel.is_solved`: for each face, every cubie on the face plane
must show, on the face's outward label, the color of that face's center
cubie. -/
def is_solved (m : CubeModel) : Bool :=
  (List.range 6).all fun f =>
    match FACE_AXES (Int.ofNat f) with
    | none => true
    | some (axis, sign) =>
      let face_key := labelOf axis sign
      let center_color := (m.cubies (setC (0, 0, 0) axis sign)).colors face_key
      allPositions.all fun p =>
        if getC p axis = sign then
          (m.cubies p).colors face_key == center_color
        else true

/-- The face-specific 3D-to-2D projection of `_get_coordinate_mapping`,
taking the normalized (0..2) coordinates. -/
def coordMap (axis : Nat) (sign : Int) (np : Int × Int × Int) : Int × Int :=
  let c1 := getC np (otherAxes axis).1
  let c2 := getC np (otherAxes axis).2
  if axis = 0 then (if sign > 0 then (2 - c2, c1) else (2 - c2, 2 - c1))
  else if axis = 1 then (if sign > 0 then (2 - c2, 2 - c1) else (2 - c2, c1))
  else (if sign > 0 then (c2, c1) else (2 - c2, c1))

/-- `CubeModel.get_face_colors`: fill a 3x3 grid (initialized to zeros as
`np.zeros`) with the face-key color of every cubie on the face plane, at
the cell given by `coordMap` of the normalized position.  An invalid face
would raise a `KeyError` in the source; here it yields the zero grid and is
never used.  A `None` color (impossible on the face plane of a well-formed
state) would be a `TypeError` in the source; `getD 0` stands in for it. -/
def get_face_colors (m : CubeModel) (face : Int) : Int → Int → Nat :=
  match FACE_AXES face with
  | none => fun _ _ => 0
  | some (axis, sign) =>
    let face_key := labelOf axis sign
    allPositions.foldl
      (fun g p =>
        if getC p axis = sign then
          let np : Int × Int × Int := (p.1 + 1, p.2.1 + 1, p.2.2 + 1)
          let rc := coordMap axis sign np
          fun r c => if r = rc.1 ∧ c = rc.2 then
            ((m.cubies p).colors face_key).getD 0 else g r c
        else g)
      (fun _ _ => 0)

/-- One row of a face grid as a list of three cells. -/
def gridRow (g : Int → Int → Nat) (r : Int) : List Nat := [g r 0, g r 1, g r 2]

/-- All nine cells of a face grid, row by row. -/
def gridList (g : Int → Int → Nat) : List Nat :=
  gridRow g 0 ++ gridRow g 1 ++ gridRow g 2

/-- `CubeModel.randomize`, with the global `random` module's stream of
draws made explicit: draw `2*num_moves` values from `rng`, each move taking
`random.choice(faces)` at even indices and `random.choice(directions)` at
odd indices (a choice from a list is indexing by a draw modulo its
length).  `randomize` itself takes no seed argument in the source. -/
def randomizeLoop (m : CubeModel) (k num_moves : Nat) (rng : Nat → Nat) : CubeModel :=
  match num_moves with
  | 0 => m
  | n + 1 =>
    let face := (validFaces.getD (rng (2 * k) % 6) 0)
    let direction := (([1, -1] : List Int).getD (rng (2 * k + 1) % 2) 1)
    randomizeLoop (rf m face direction) (k + 1) n rng

/-- `CubeModel.randomize`: gated by `animating`, otherwise `num_moves`
random `rotate_face` calls; returns the Python boolean result. -/
def randomize (m : CubeModel) (num_moves : Nat) (rng : Nat → Nat) :
    CubeModel × Bool :=
  if m.animating then (m, false)
  else (randomizeLoop m 0 num_moves rng, true)

/-- A label is visible at a position when the position's coordinate on the
label's axis equals the label's sign (spec §3: exactly the outward faces
hold a color). -/
def visible (p : Pos) (l : FaceLabel) : Prop :=
  getC p (labelAxis l) = labelSign l

instance (p : Pos) (l : FaceLabel) : Decidable (visible p l) := by
  unfold visible; infer_instance

/-- Well-formedness of a cubie mapping (the spec §3 invariants): each
cubie's stored coordinates agree with its key, and a label holds a color
exactly when it is visible at the key position. -/
def WFfun (cub : Pos → Cubie) : Prop :=
  ∀ p : Pos, (cub p).x = p.1 ∧ (cub p).y = p.2.1 ∧ (cub p).z = p.2.2 ∧
    ∀ l : FaceLabel, ((cub p).colors l).isSome ↔ visible p l

/-- Well-formedness of a model state. -/
def WF (m : CubeModel) : Prop := WFfun m.cubies

theorem WF_initial : WF CubeModel.initial := by
  rintro ⟨x, y, z⟩
  refine ⟨rfl, rfl, rfl, ?_⟩
  intro l
  cases l <;>
    simp [CubeModel.initial, Cubie.init, visible, getC, labelAxis, labelSign] <;>
    split <;> simp_all

/-! ### Supporting lemmas: the label permutation -/

theorem mem_labels (l : FaceLabel) : l ∈ labels := by cases l <;> simp [labels]

/-- Evaluating the color-copy fold of `rotate_cubie_colors` at a label `l`:
only the unique source label `gInv l` can write to `l`. -/
theorem foldl_copy_eval (g gInv : FaceLabel → FaceLabel)
    (old : FaceLabel → Option Nat) (l : FaceLabel)
    (hg : ∀ u, g u = l ↔ u = gInv l) :
    ∀ (L : List FaceLabel) (acc : FaceLabel → Option Nat),
      (L.foldl
        (fun acc u =>
          if (old u).isSome then
            fun l2 => if l2 = g u then old u else acc l2
          else acc) acc) l
      = if gInv l ∈ L ∧ (old (gInv l)).isSome then old (gInv l) else acc l := by
  intro L
  induction L with
  | nil => simp
  | cons a L ih =>
    intro acc
    rw [List.foldl_cons, ih]
    by_cases hs0 : (old (gInv l)).isSome = true
    · by_cases hmem : gInv l ∈ L
      · simp [hmem, hs0]
      · by_cases ha : a = gInv l
        · subst ha
          have hgx : g (gInv l) = l := (hg _).mpr rfl
          simp [hmem, hs0, hgx]
        · have hne : ¬ l = g a := fun h => ha ((hg a).mp h.symm)
          have ha2 : ¬ gInv l = a := fun h => ha h.symm
          by_cases hsa : (old a).isSome = true <;>
            simp [hmem, hs0, ha, ha2, hne, hsa]
    · by_cases ha : a = gInv l
      · subst ha
        simp [hs0]
      · have hne : ¬ l = g a := fun h => ha ((hg a).mp h.symm)
        have ha2 : ¬ gInv l = a := fun h => ha h.symm
        by_cases hsa : (old a).isSome = true <;>
          simp [hs0, hsa, hne, ha, ha2]

/-- `faceMappingInv` is inverse to `faceMapping`: `u` maps to `l` exactly
when `u` is `faceMappingInv l`. -/
theorem faceMapping_eq_iff (axis : Nat) (e : Int)
    (haxis : axis = 0 ∨ axis = 1 ∨ axis = 2) (he : e = 1 ∨ e = -1) :
    ∀ u l : FaceLabel, faceMapping axis e u = l ↔ u = faceMappingInv axis e l := by
  rcases haxis with rfl | rfl | rfl <;> rcases he with rfl | rfl <;> decide

/-- Four applications of the inverse label permutation are the identity. -/
theorem faceMappingInv_four (axis : Nat) (e : Int)
    (haxis : axis = 0 ∨ axis = 1 ∨ axis = 2) (he : e = 1 ∨ e = -1) :
    ∀ l, faceMappingInv axis e (faceMappingInv axis e
      (faceMappingInv axis e (faceMappingInv axis e l))) = l := by
  rcases haxis with rfl | rfl | rfl <;> rcases he with rfl | rfl <;> decide

/-- The inverse label permutations of a rotation and of the opposite
rotation cancel. -/
theorem faceMappingInv_pair (axis : Nat) (e : Int)
    (haxis : axis = 0 ∨ axis = 1 ∨ axis = 2) (he : e = 1 ∨ e = -1) :
    ∀ l, faceMappingInv axis e (faceMappingInv axis (-e) l) = l := by
  rcases haxis with rfl | rfl | rfl <;> rcases he with rfl | rfl <;> decide

/-! ### Supporting lemmas: the position rotation -/

/-- `rotPosInv` leaves the rotation-axis coordinate unchanged. -/
theorem getC_rotPosInv (axis : Nat) (haxis : axis = 0 ∨ axis = 1 ∨ axis = 2)
    (e : Int) (q : Pos) : getC (rotPosInv axis e q) axis = getC q axis := by
  obtain ⟨x, y, z⟩ := q
  rcases haxis with rfl | rfl | rfl <;>
    · unfold rotPosInv
      split <;> simp [getC, setC, otherAxes]

/-- The source's forward position map and its inverse cancel. -/
theorem rotPos_rotPosInv (axis : Nat) (haxis : axis = 0 ∨ axis = 1 ∨ axis = 2)
    (e : Int) (q : Pos) : rotPos axis e (rotPosInv axis e q) = q := by
  obtain ⟨x, y, z⟩ := q
  rcases haxis with rfl | rfl | rfl <;>
    · unfold rotPos rotPosInv
      split <;> simp [getC, setC, otherAxes]

theorem rotPosInv_rotPos (axis : Nat) (haxis : axis = 0 ∨ axis = 1 ∨ axis = 2)
    (e : Int) (q : Pos) : rotPosInv axis e (rotPos axis e q) = q := by
  obtain ⟨x, y, z⟩ := q
  rcases haxis with rfl | rfl | rfl <;>
    · unfold rotPos rotPosInv
      split <;> simp [getC, setC, otherAxes]

/-- Four applications of the inverse position map are the identity. -/
theorem rotPosInv_four (axis : Nat) (e : Int)
    (haxis : axis = 0 ∨ axis = 1 ∨ axis = 2) (he : e = 1 ∨ e = -1) (q : Pos) :
    rotPosInv axis e (rotPosInv axis e (rotPosInv axis e (rotPosInv axis e q))) = q := by
  obtain ⟨x, y, z⟩ := q
  rcases haxis with rfl | rfl | rfl <;> rcases he with rfl | rfl <;>
    simp [rotPosInv, getC, setC, otherAxes]

/-- The inverse position maps of a rotation and of the opposite rotation
cancel. -/
theorem rotPosInv_pair (axis : Nat) (e : Int)
    (haxis : axis = 0 ∨ axis = 1 ∨ axis = 2) (he : e = 1 ∨ e = -1) (q : Pos) :
    rotPosInv axis e (rotPosInv axis (-e) q) = q := by
  obtain ⟨x, y, z⟩ := q
  rcases haxis with rfl | rfl | rfl <;> rcases he with rfl | rfl <;>
    simp [rotPosInv, getC, setC, otherAxes]

/-- Visibility is transported: a label is visible at a plane position after
rotation exactly when its `faceMappingInv` preimage is visible at the
`rotPosInv` preimage position. -/
theorem visible_rotPosInv (axis : Nat) (e : Int)
    (haxis : axis = 0 ∨ axis = 1 ∨ axis = 2) (he : e = 1 ∨ e = -1)
    (q : Pos) (l : FaceLabel) :
    visible (rotPosInv axis e q) (faceMappingInv axis e l) ↔ visible q l := by
  obtain ⟨x, y, z⟩ := q
  rcases haxis with rfl | rfl | rfl <;> rcases he with rfl | rfl <;> cases l <;>
    simp [visible, rotPosInv, faceMappingInv, getC, setC, otherAxes,
      labelAxis, labelSign, labelOf] <;> omega

/-! ### The rotation as a permutation action on well-formed states -/

/-- Abstract face-plane action: on the plane, place at `q` a cubie with
coordinates `q` and colors read from `cub (F q)` through the label map `G`;
off the plane, keep the entry. -/
def act (axis : Nat) (sign : Int) (F : Pos → Pos) (G : FaceLabel → FaceLabel)
    (cub : Pos → Cubie) : Pos → Cubie :=
  fun q =>
    if getC q axis = sign then
      { x := q.1, y := q.2.1, z := q.2.2,
        colors := fun l => (cub (F q)).colors (G l) }
    else cub q

/-- The colors written when a label is not visible at `(x, y, z)`. -/
theorem Cubie_init_colors_none (x y z : Int) (l : FaceLabel)
    (h : ¬ visible (x, y, z) l) : (Cubie.init x y z).colors l = none := by
  cases l <;> simp_all [Cubie.init, visible, getC, labelAxis, labelSign]

/-- On a well-formed state, one rotation step is exactly the permutation
action: positions pulled back along `rotPosInv`, labels along
`faceMappingInv`.  The freshly constructed cubie's default colors are
invisible labels only, hence always overwritten or `None`. -/
theorem rotStep_eq_act (axis : Nat) (sign e : Int)
    (haxis : axis = 0 ∨ axis = 1 ∨ axis = 2) (he : e = 1 ∨ e = -1)
    (cub : Pos → Cubie) (hwf : WFfun cub) :
    rotStep axis sign e cub
      = act axis sign (rotPosInv axis e) (faceMappingInv axis e) cub := by
  funext q
  unfold rotStep act
  by_cases hq : getC q axis = sign
  · rw [if_pos hq, if_pos hq]
    refine Cubie.ext rfl rfl rfl ?_
    funext l
    refine (foldl_copy_eval (faceMapping axis e) (faceMappingInv axis e)
      ((cub (rotPosInv axis e q)).colors) l
      (fun u => faceMapping_eq_iff axis e haxis he u l) labels
      ((Cubie.init q.1 q.2.1 q.2.2).colors)).trans ?_
    by_cases hs : ((cub (rotPosInv axis e q)).colors
        (faceMappingInv axis e l)).isSome = true
    · rw [if_pos ⟨mem_labels _, hs⟩]
    · rw [if_neg (fun h => hs h.2)]
      have h0 : (cub (rotPosInv axis e q)).colors (faceMappingInv axis e l) = none :=
        Option.not_isSome_iff_eq_none.mp (by simpa using hs)
      rw [h0]
      apply Cubie_init_colors_none
      intro hvl
      exact hs (((hwf (rotPosInv axis e q)).2.2.2 (faceMappingInv axis e l)).mpr
        ((visible_rotPosInv axis e haxis he q l).mpr hvl))
  · simp only [if_neg hq]

/-- A rotation step preserves well-formedness. -/
theorem rotStep_WF (axis : Nat) (sign e : Int)
    (haxis : axis = 0 ∨ axis = 1 ∨ axis = 2) (he : e = 1 ∨ e = -1)
    (cub : Pos → Cubie) (hwf : WFfun cub) :
    WFfun (rotStep axis sign e cub) := by
  rw [rotStep_eq_act axis sign e haxis he cub hwf]
  intro p
  unfold act
  by_cases hp : getC p axis = sign
  · rw [if_pos hp]
    refine ⟨rfl, rfl, rfl, ?_⟩
    intro l
    exact ((hwf (rotPosInv axis e p)).2.2.2 (faceMappingInv axis e l)).trans
      (visible_rotPosInv axis e haxis he p l)
  · rw [if_neg hp]
    exact hwf p

/-- Composition of two plane actions whose position maps preserve the
plane. -/
theorem act_act (axis : Nat) (sign : Int) (F F2 : Pos → Pos)
    (G G2 : FaceLabel → FaceLabel) (cub : Pos → Cubie)
    (hF : ∀ q, getC q axis = sign → getC (F q) axis = sign) :
    act axis sign F G (act axis sign F2 G2 cub)
      = act axis sign (fun q => F2 (F q)) (fun l => G2 (G l)) cub := by
  funext q
  by_cases hq : getC q axis = sign
  · simp only [act, if_pos hq, if_pos (hF q hq)]
  · simp only [act, if_neg hq]

/-- A plane action whose maps are the identity on the plane is the
identity on well-formed states. -/
theorem act_id (axis : Nat) (sign : Int) (F : Pos → Pos)
    (G : FaceLabel → FaceLabel) (cub : Pos → Cubie) (hwf : WFfun cub)
    (hF : ∀ q, getC q axis = sign → F q = q) (hG : ∀ l, G l = l) :
    act axis sign F G cub = cub := by
  funext q
  by_cases hq : getC q axis = sign
  · rw [act, if_pos hq, hF q hq]
    obtain ⟨hx, hy, hz, _⟩ := hwf q
    refine (Cubie.ext hx hy hz ?_).symm
    funext l
    show (cub q).colors l = (cub q).colors (G l)
    rw [hG l]
  · rw [act, if_neg hq]

/-! ### Model-level lemmas -/

/-- A valid face id resolves in `FACE_AXES` to an axis in {0,1,2} and a
sign in {1,-1}. -/
theorem face_axes_of_mem (face : Int) (hf : face ∈ validFaces) :
    ∃ axis sign, FACE_AXES face = some (axis, sign) ∧
      (axis = 0 ∨ axis = 1 ∨ axis = 2) ∧ (sign = 1 ∨ sign = -1) := by
  simp only [validFaces, List.mem_cons, List.mem_singleton] at hf
  rcases hf with rfl | rfl | rfl | rfl | rfl | rfl | h
  · exact ⟨2, 1, rfl, by tauto, by tauto⟩
  · exact ⟨2, -1, rfl, by tauto, by tauto⟩
  · exact ⟨0, 1, rfl, by tauto, by tauto⟩
  · exact ⟨0, -1, rfl, by tauto, by tauto⟩
  · exact ⟨1, 1, rfl, by tauto, by tauto⟩
  · exact ⟨1, -1, rfl, by tauto, by tauto⟩
  · cases h

/-- Unfolding a successful `rotate_face` call: history appended, cubies
replaced by one rotation step, return value `True`. -/
theorem rotate_face_valid (m : CubeModel) (face d : Int) (axis : Nat) (sign : Int)
    (ha : m.animating = false) (hfa : FACE_AXES face = some (axis, sign)) :
    rotate_face m face d
      = ({ cubies := rotStep axis sign (d * sign) m.cubies,
           animating := m.animating,
           history := m.history ++ [(face, d)] }, some true) := by
  rw [rotate_face, ha, hfa]
  rfl

/-- `rotate_face` never changes the `animating` flag. -/
theorem rf_animating (m : CubeModel) (face d : Int) :
    (rf m face d).animating = m.animating := by
  rw [rf, rotate_face]
  by_cases ha : m.animating = true
  · rw [if_pos ha]
  · rw [if_neg ha]
    cases hfa : FACE_AXES face with
    | none => rfl
    | some v => obtain ⟨axis, sign⟩ := v; rfl

/-- The cubies of a `rotate_face` result depend only on the cubies and
`animating` flag of the argument. -/
theorem rf_cubies_congr (m1 m2 : CubeModel) (face d : Int)
    (hc : m1.cubies = m2.cubies) (ha : m1.animating = m2.animating) :
    (rf m1 face d).cubies = (rf m2 face d).cubies := by
  rw [rf, rf, rotate_face, rotate_face, ha, hc]
  by_cases h : m2.animating = true
  · rw [if_pos h, if_pos h, hc]
  · rw [if_neg h, if_neg h]
    cases hfa : FACE_AXES face with
    | none => rfl
    | some v => obtain ⟨axis, sign⟩ := v; rfl

/-- The plane of a rotated face is preserved by the inverse position map. -/
theorem rotPosInv_plane (axis : Nat) (sign e : Int)
    (haxis : axis = 0 ∨ axis = 1 ∨ axis = 2) :
    ∀ q : Pos, getC q axis = sign → getC (rotPosInv axis e q) axis = sign :=
  fun q hq => (getC_rotPosInv axis haxis e q).trans hq

/-- Negating an effective direction stays in {1, -1}. -/
theorem neg_dir (e : Int) (he : e = 1 ∨ e = -1) : -e = 1 ∨ -e = -1 := by
  rcases he with rfl | rfl
  · exact Or.inr rfl
  · exact Or.inl (by norm_num)

/-- Closure at the level of the cubie mapping: four identical rotation
steps are the identity on well-formed states. -/
theorem rotStep_four (axis : Nat) (sign e : Int)
    (haxis : axis = 0 ∨ axis = 1 ∨ axis = 2) (he : e = 1 ∨ e = -1)
    (cub : Pos → Cubie) (hwf : WFfun cub) :
    rotStep axis sign e (rotStep axis sign e
      (rotStep axis sign e (rotStep axis sign e cub))) = cub := by
  have b0 := rotStep_eq_act axis sign e haxis he cub hwf
  have w1 : WFfun (act axis sign (rotPosInv axis e) (faceMappingInv axis e) cub) :=
    b0 ▸ rotStep_WF axis sign e haxis he cub hwf
  have b1 := rotStep_eq_act axis sign e haxis he _ w1
  have w2 : WFfun (act axis sign (rotPosInv axis e) (faceMappingInv axis e)
      (act axis sign (rotPosInv axis e) (faceMappingInv axis e) cub)) :=
    b1 ▸ rotStep_WF axis sign e haxis he _ w1
  have b2 := rotStep_eq_act axis sign e haxis he _ w2
  have w3 : WFfun (act axis sign (rotPosInv axis e) (faceMappingInv axis e)
      (act axis sign (rotPosInv axis e) (faceMappingInv axis e)
      (act axis sign (rotPosInv axis e) (faceMappingInv axis e) cub))) :=
    b2 ▸ rotStep_WF axis sign e haxis he _ w2
  have b3 := rotStep_eq_act axis sign e haxis he _ w3
  rw [b0, b1, b2, b3]
  funext q
  by_cases hq : getC q axis = sign
  · have hq1 := rotPosInv_plane axis sign e haxis q hq
    have hq2 := rotPosInv_plane axis sign e haxis _ hq1
    have hq3 := rotPosInv_plane axis sign e haxis _ hq2
    simp only [act, if_pos hq, if_pos hq1, if_pos hq2, if_pos hq3,
      rotPosInv_four axis e haxis he, faceMappingInv_four axis e haxis he]
    obtain ⟨hx, hy, hz, _⟩ := hwf q
    exact Cubie.ext hx.symm hy.symm hz.symm rfl
  · simp only [act, if_neg hq]

/-- Inverse at the level of the cubie mapping: a rotation step followed by
the opposite step is the identity on well-formed states. -/
theorem rotStep_pair (axis : Nat) (sign e : Int)
    (haxis : axis = 0 ∨ axis = 1 ∨ axis = 2) (he : e = 1 ∨ e = -1)
    (cub : Pos → Cubie) (hwf : WFfun cub) :
    rotStep axis sign (-e) (rotStep axis sign e cub) = cub := by
  have b0 := rotStep_eq_act axis sign e haxis he cub hwf
  have w1 : WFfun (act axis sign (rotPosInv axis e) (faceMappingInv axis e) cub) :=
    b0 ▸ rotStep_WF axis sign e haxis he cub hwf
  have b1 := rotStep_eq_act axis sign (-e) haxis (neg_dir e he) _ w1
  rw [b0, b1]
  funext q
  by_cases hq : getC q axis = sign
  · have hq1 := rotPosInv_plane axis sign (-e) haxis q hq
    simp only [act, if_pos hq, if_pos hq1,
      rotPosInv_pair axis e haxis he, faceMappingInv_pair axis e haxis he]
    obtain ⟨hx, hy, hz, _⟩ := hwf q
    exact Cubie.ext hx.symm hy.symm hz.symm rfl
  · simp only [act, if_neg hq]

/-- Claim C1: for every face in {0..5} and every direction in {+1,-1},
starting from any well-formed cube state with `animating` false, applying
`rotate_face(face, direction)` four times consecutively returns the
position-to-cubie mapping — every cubie position and every cubie's
per-label colors — to exactly the state it had before the four calls. -/
theorem claim_C1 (m : CubeModel) (face d : Int) (hf : face ∈ validFaces)
    (hd : d = 1 ∨ d = -1) (ha : m.animating = false) (hwf : WF m) :
    (rf (rf (rf (rf m face d) face d) face d) face d).cubies = m.cubies := by
  obtain ⟨axis, sign, hfa, haxis, hs⟩ := face_axes_of_mem face hf
  have he : d * sign = 1 ∨ d * sign = -1 := by
    rcases hd with rfl | rfl <;> rcases hs with rfl | rfl <;> norm_num
  have a1 : (rf m face d).animating = false := (rf_animating m face d).trans ha
  have a2 : (rf (rf m face d) face d).animating = false :=
    (rf_animating _ face d).trans a1
  have a3 : (rf (rf (rf m face d) face d) face d).animating = false :=
    (rf_animating _ face d).trans a2
  have e1 : (rf m face d).cubies = rotStep axis sign (d * sign) m.cubies := by
    rw [rf, rotate_face_valid m face d axis sign ha hfa]
  have e2 : (rf (rf m face d) face d).cubies
      = rotStep axis sign (d * sign) ((rf m face d).cubies) := by
    rw [rf, rotate_face_valid _ face d axis sign a1 hfa]
  have e3 : (rf (rf (rf m face d) face d) face d).cubies
      = rotStep axis sign (d * sign) ((rf (rf m face d) face d).cubies) := by
    rw [rf, rotate_face_valid _ face d axis sign a2 hfa]
  have e4 : (rf (rf (rf (rf m face d) face d) face d) face d).cubies
      = rotStep axis sign (d * sign)
          ((rf (rf (rf m face d) face d) face d).cubies) := by
    rw [rf, rotate_face_valid _ face d axis sign a3 hfa]
  rw [e4, e3, e2, e1]
  exact rotStep_four axis sign (d * sign) haxis he m.cubies hwf

theorem claim_C1_witness :
    (rf (rf (rf (rf CubeModel.initial 0 1) 0 1) 0 1) 0 1).cubies
      = CubeModel.initial.cubies :=
  claim_C1 CubeModel.initial 0 1 (by decide) (Or.inl rfl) rfl WF_initial

/-- Claim C2: for every face in {0..5} and every well-formed cube state
with `animating` false, `rotate_face(face, +1)` followed by
`rotate_face(face, -1)` leaves the position-to-cubie mapping (positions
and colors) identical to the state before the two calls, and likewise with
the two directions in the opposite order. -/
theorem claim_C2 (m : CubeModel) (face : Int) (hf : face ∈ validFaces)
    (ha : m.animating = false) (hwf : WF m) :
    (rf (rf m face 1) face (-1)).cubies = m.cubies ∧
    (rf (rf m face (-1)) face 1).cubies = m.cubies := by
  obtain ⟨axis, sign, hfa, haxis, hs⟩ := face_axes_of_mem face hf
  have hs1 : (1 : Int) * sign = sign := one_mul sign
  have a1 : (rf m face 1).animating = false := (rf_animating m face 1).trans ha
  have a1m : (rf m face (-1)).animating = false :=
    (rf_animating m face (-1)).trans ha
  constructor
  · have e1 : (rf m face 1).cubies = rotStep axis sign sign m.cubies := by
      rw [rf, rotate_face_valid m face 1 axis sign ha hfa, hs1]
    have e2 : (rf (rf m face 1) face (-1)).cubies
        = rotStep axis sign (-sign) ((rf m face 1).cubies) := by
      rw [rf, rotate_face_valid _ face (-1) axis sign a1 hfa]
      norm_num
    rw [e2, e1]
    exact rotStep_pair axis sign sign haxis hs m.cubies hwf
  · have e1 : (rf m face (-1)).cubies = rotStep axis sign (-sign) m.cubies := by
      rw [rf, rotate_face_valid m face (-1) axis sign ha hfa]
      norm_num
    have e2 : (rf (rf m face (-1)) face 1).cubies
        = rotStep axis sign sign ((rf m face (-1)).cubies) := by
      rw [rf, rotate_face_valid _ face 1 axis sign a1m hfa, hs1]
    rw [e2, e1]
    have := rotStep_pair axis sign (-sign) haxis (neg_dir sign hs) m.cubies hwf
    rwa [neg_neg] at this

theorem claim_C2_witness :
    (rf (rf CubeModel.initial 0 1) 0 (-1)).cubies = CubeModel.initial.cubies ∧
    (rf (rf CubeModel.initial 0 (-1)) 0 1).cubies = CubeModel.initial.cubies :=
  claim_C2 CubeModel.initial 0 (by decide) rfl WF_initial

/-- Claim C5: a freshly created cube reports `is_solved() == true`, and
after exactly one `rotate_face(face, direction)` on the fresh cube, for
every face in {0..5} and direction in {+1,-1}, `is_solved() == false`. -/
theorem claim_C5 :
    is_solved CubeModel.initial = true ∧
    (validFaces.all fun face => (([1, -1] : List Int).all fun d =>
      !(is_solved (rf CubeModel.initial face d)))) = true := by
  constructor
  · decide
  · decide

/-- Claim C6: on a freshly created cube, after the single call
`rotate_face(0, +1)` (Top), `get_face_colors(0)` returns the same 3x3 grid
as before the call — every cell `WHITE` — and the top row of
`get_face_colors(4)` (Front) equals the top row `get_face_colors(2)`
(Right) returned before the call. -/
theorem claim_C6 :
    gridList (get_face_colors (rf CubeModel.initial 0 1) 0)
      = gridList (get_face_colors CubeModel.initial 0) ∧
    gridList (get_face_colors (rf CubeModel.initial 0 1) 0)
      = List.replicate 9 WHITE ∧
    gridRow (get_face_colors (rf CubeModel.initial 0 1) 4) 0
      = gridRow (get_face_colors CubeModel.initial 2) 0 := by
  refine ⟨by decide, by decide, by decide⟩

/-- Claim C7 fails as stated: `rotate_face` on an invalid face does raise
(`KeyError`, result `none`) without touching the cubies, but the move
history is NOT unchanged — the source appends `(face, direction)` to
`history` before the failing `FACE_AXES[face]` lookup.  Concretely, the
call `rotate_face(6, 1)` on a fresh cube raises and leaves the attempted
move recorded. -/
theorem claim_C7_counterexample :
    (rotate_face CubeModel.initial 6 1).2 = none ∧
    ¬ ((rotate_face CubeModel.initial 6 1).1.history
      = CubeModel.initial.history) := by
  refine ⟨by decide, by decide⟩

/-- Claim C7, amended: for every face value outside {0..5} and any
direction, `rotate_face` with `animating` false fails with the `KeyError`
from the `FACE_AXES` lookup rather than performing a rotation, and the
position-to-cubie mapping is unchanged; the move history, however, has the
attempted `(face, direction)` appended before the failure. -/
theorem claim_C7 (m : CubeModel) (face d : Int) (hf : face ∉ validFaces)
    (ha : m.animating = false) :
    rotate_face m face d
      = ({ cubies := m.cubies, animating := m.animating,
           history := m.history ++ [(face, d)] }, none) := by
  have hfa : FACE_AXES face = none := by
    simp only [validFaces, List.mem_cons, List.mem_singleton, not_or] at hf
    obtain ⟨h0, h1, h2, h3, h4, h5, _⟩ := hf
    simp [FACE_AXES, h0, h1, h2, h3, h4, h5]
  rw [rotate_face, ha, hfa]
  rfl

theorem claim_C7_witness :
    rotate_face CubeModel.initial 6 1
      = ({ cubies := CubeModel.initial.cubies,
           animating := CubeModel.initial.animating,
           history := CubeModel.initial.history ++ [(6, 1)] }, none) :=
  claim_C7 CubeModel.initial 6 1 (by decide) rfl

/-- Claim C8: whenever `animating` is true, `rotate_face(face, direction)`
returns the no-op result `False` with the model unchanged, and
`randomize(n)` likewise returns `False` with the model unchanged, for
every face, direction, move count and random stream. -/
theorem claim_C8 (m : CubeModel) (face d : Int) (n : Nat) (rng : Nat → Nat)
    (ha : m.animating = true) :
    rotate_face m face d = (m, some false) ∧ randomize m n rng = (m, false) := by
  rw [rotate_face, randomize, ha]
  exact ⟨rfl, rfl⟩

theorem claim_C8_witness :
    rotate_face { CubeModel.initial with animating := true } 0 1
        = ({ CubeModel.initial with animating := true }, some false) ∧
      randomize { CubeModel.initial with animating := true } 20 (fun _ => 0)
        = ({ CubeModel.initial with animating := true }, false) :=
  claim_C8 { CubeModel.initial with animating := true } 0 1 20 (fun _ => 0) rfl

/-- Two rotation steps with effective directions that are both different
from `+1` are the same transformation (both take the source's
counter-clockwise else-branches for positions and colors). -/
theorem rotStep_ne_one (axis : Nat) (sign e1 e2 : Int)
    (h1 : ¬ e1 = 1) (h2 : ¬ e2 = 1) :
    rotStep axis sign e1 = rotStep axis sign e2 := by
  have hp : rotPosInv axis e1 = rotPosInv axis e2 := by
    funext q
    rw [rotPosInv, rotPosInv, if_neg h1, if_neg h2]
  have hm : faceMapping axis e1 = faceMapping axis e2 := by
    funext l
    rw [faceMapping, faceMapping]
    simp only [if_neg h1, if_neg h2]
  funext cub q
  rw [rotStep, rotStep, hp]
  by_cases hq : getC q axis = sign
  · rw [if_pos hq, if_pos hq, rotate_cubie_colors, rotate_cubie_colors, hm]
  · rw [if_neg hq, if_neg hq]

/-- Claim C10: `rotate_face` never validates its direction argument.  For
every valid face with sign `s` and every integer direction `d` with
`d * s ≠ 1` (including `d = 0` or `d = 2`), a call with `animating` false
returns `True`, appends `(face, d)` to the history, and applies exactly
the counter-clockwise effective rotation — the else-branch `rotStep` with
effective direction `-1` — to the cubie mapping. -/
theorem claim_C10 (m : CubeModel) (face d : Int) (axis : Nat) (sign : Int)
    (ha : m.animating = false) (hfa : FACE_AXES face = some (axis, sign))
    (hd : ¬ d * sign = 1) :
    (rotate_face m face d).2 = some true ∧
    (rotate_face m face d).1.history = m.history ++ [(face, d)] ∧
    (rotate_face m face d).1.cubies = rotStep axis sign (-1) m.cubies := by
  rw [rotate_face_valid m face d axis sign ha hfa]
  refine ⟨rfl, rfl, ?_⟩
  show rotStep axis sign (d * sign) m.cubies = rotStep axis sign (-1) m.cubies
  rw [rotStep_ne_one axis sign (d * sign) (-1) hd (by norm_num)]

theorem claim_C10_witness :
    (rotate_face CubeModel.initial 0 2).2 = some true ∧
    (rotate_face CubeModel.initial 0 2).1.history
      = CubeModel.initial.history ++ [(0, 2)] ∧
    (rotate_face CubeModel.initial 0 2).1.cubies
      = rotStep 2 1 (-1) CubeModel.initial.cubies :=
  claim_C10 CubeModel.initial 0 2 2 1 rfl rfl (by decide)

/-- Claim C9 fails as stated: `randomize` accepts no seed argument — its
signature is `randomize(num_moves=20)` and it draws from the global
`random` module's stream.  Modelling that stream as the explicit source of
draws, two calls of `randomize(20)` from the same starting state and the
same move count can yield different results when the global stream
differs, so the outcome is not a function of anything the caller passes to
`randomize`; there is no `seed=42` parameter to pin it down. -/
theorem claim_C9_counterexample :
    ¬ ((randomize CubeModel.initial 20 (fun _ => 0)).1.history
      = (randomize CubeModel.initial 20 (fun _ => 1)).1.history) := by
  decide

/-- The body of the `randomize` loop is determined by the draws it
consumes: moves `k..k+n-1` read stream indices `2k..2(k+n)-1`. -/
theorem randomizeLoop_congr :
    ∀ (n k : Nat) (m : CubeModel) (rng1 rng2 : Nat → Nat),
      (∀ i, 2 * k ≤ i → i < 2 * (k + n) → rng1 i = rng2 i) →
      randomizeLoop m k n rng1 = randomizeLoop m k n rng2 := by
  intro n
  induction n with
  | zero => intro k m r1 r2 h; rfl
  | succ n ih =>
    intro k m r1 r2 h
    rw [randomizeLoop, randomizeLoop]
    have h0 : r1 (2 * k) = r2 (2 * k) := h _ (le_refl _) (by omega)
    have h1 : r1 (2 * k + 1) = r2 (2 * k + 1) := h _ (by omega) (by omega)
    rw [h0, h1]
    exact ih (k + 1) _ r1 r2 (fun i hi1 hi2 => h i (by omega) (by omega))

/-- Claim C9, amended: `randomize` takes only a move count; faces and
directions come from the global random stream.  Its outcome is a
deterministic function of the starting state, the move count, and that
stream: two runs from the same state consuming the same `2 * n` draws
produce identical results (state and history).  Seeding is possible only
by seeding the global `random` module outside `randomize`. -/
theorem claim_C9 (m : CubeModel) (n : Nat) (rng1 rng2 : Nat → Nat)
    (h : ∀ i, i < 2 * n → rng1 i = rng2 i) :
    randomize m n rng1 = randomize m n rng2 := by
  rw [randomize, randomize]
  by_cases ha : m.animating = true
  · rw [if_pos ha, if_pos ha]
  · rw [if_neg ha, if_neg ha,
      randomizeLoop_congr n 0 m rng1 rng2 (fun i _ hi2 => h i (by omega))]

theorem claim_C9_witness :
    randomize CubeModel.initial 20 (fun i => i)
      = randomize CubeModel.initial 20 (fun i => i) :=
  claim_C9 CubeModel.initial 20 (fun i => i) (fun i => i) (fun _ _ => rfl)

/-! ### Color conservation (C3) and history round-trip (C4) -/

/-- The visible facelets of one cubie: the multiset of its non-`None`
colors. -/
def cubieFacelets (c : Cubie) : Multiset Nat :=
  ((labels.filterMap c.colors : List Nat) : Multiset Nat)

/-- The visible facelets of a cubie mapping over the 26 positions. -/
def faceletsOf (cub : Pos → Cubie) : Multiset Nat :=
  ((allPositions : Multiset Pos).map fun p => cubieFacelets (cub p)).sum

/-- The multiset of colors over all visible facelets of the cube. -/
def facelets (m : CubeModel) : Multiset Nat := faceletsOf m.cubies

/-- The inverse label permutation permutes the label list. -/
theorem labels_map_fmInv_perm (axis : Nat) (e : Int)
    (haxis : axis = 0 ∨ axis = 1 ∨ axis = 2) (he : e = 1 ∨ e = -1) :
    (labels.map (faceMappingInv axis e)).Perm labels := by
  rcases haxis with rfl | rfl | rfl <;> rcases he with rfl | rfl <;> decide

/-- The inverse position map permutes the face-plane lattice positions. -/
theorem plane_map_rotPosInv (axis : Nat) (sign e : Int)
    (haxis : axis = 0 ∨ axis = 1 ∨ axis = 2) (hs : sign = 1 ∨ sign = -1)
    (he : e = 1 ∨ e = -1) :
    ((allPositions : Multiset Pos).filter (fun p => getC p axis = sign)).map
        (rotPosInv axis e)
      = (allPositions : Multiset Pos).filter (fun p => getC p axis = sign) := by
  rcases haxis with rfl | rfl | rfl <;> rcases hs with rfl | rfl <;>
    rcases he with rfl | rfl <;> decide

/-- Reading a cubie's colors through the inverse label permutation leaves
its facelet multiset unchanged. -/
theorem cubieFacelets_relabel (axis : Nat) (e : Int)
    (haxis : axis = 0 ∨ axis = 1 ∨ axis = 2) (he : e = 1 ∨ e = -1)
    (f : FaceLabel → Option Nat) :
    ((labels.filterMap fun l => f (faceMappingInv axis e l) : List Nat) : Multiset Nat)
      = ((labels.filterMap f : List Nat) : Multiset Nat) := by
  have h1 : labels.filterMap (fun l => f (faceMappingInv axis e l))
      = (labels.map (faceMappingInv axis e)).filterMap f := by
    rw [List.filterMap_map]
    rfl
  rw [h1]
  exact Multiset.coe_eq_coe.mpr
    (List.Perm.filterMap f (labels_map_fmInv_perm axis e haxis he))

/-- One rotation step preserves the facelet multiset of a well-formed
state: plane cubies have their colors permuted and their positions
permuted within the plane; off-plane cubies are untouched. -/
theorem faceletsOf_rotStep (axis : Nat) (sign e : Int)
    (haxis : axis = 0 ∨ axis = 1 ∨ axis = 2) (hs : sign = 1 ∨ sign = -1)
    (he : e = 1 ∨ e = -1) (cub : Pos → Cubie) (hwf : WFfun cub) :
    faceletsOf (rotStep axis sign e cub) = faceletsOf cub := by
  rw [faceletsOf, faceletsOf, rotStep_eq_act axis sign e haxis he cub hwf]
  have hsplit := Multiset.filter_add_not (fun p => getC p axis = sign)
    (allPositions : Multiset Pos)
  rw [← hsplit, Multiset.map_add, Multiset.map_add, Multiset.sum_add,
    Multiset.sum_add]
  have hplane : Multiset.map
      (fun p => cubieFacelets
        (act axis sign (rotPosInv axis e) (faceMappingInv axis e) cub p))
      ((allPositions : Multiset Pos).filter (fun p => getC p axis = sign))
      = Multiset.map (fun p => cubieFacelets (cub p))
        ((allPositions : Multiset Pos).filter (fun p => getC p axis = sign)) := by
    have hstep : ∀ p ∈ (allPositions : Multiset Pos).filter
        (fun p => getC p axis = sign),
        cubieFacelets
            (act axis sign (rotPosInv axis e) (faceMappingInv axis e) cub p)
          = cubieFacelets (cub (rotPosInv axis e p)) := by
      intro p hp
      have hq : getC p axis = sign := (Multiset.mem_filter.mp hp).2
      show cubieFacelets (if getC p axis = sign then _ else _) = _
      rw [if_pos hq]
      exact cubieFacelets_relabel axis e haxis he ((cub (rotPosInv axis e p)).colors)
    rw [Multiset.map_congr rfl hstep]
    have hcomp : Multiset.map
        (fun p => cubieFacelets (cub (rotPosInv axis e p)))
        ((allPositions : Multiset Pos).filter (fun p => getC p axis = sign))
        = Multiset.map (fun p => cubieFacelets (cub p))
          (Multiset.map (rotPosInv axis e)
            ((allPositions : Multiset Pos).filter (fun p => getC p axis = sign))) := by
      rw [Multiset.map_map]
      rfl
    rw [hcomp, plane_map_rotPosInv axis sign e haxis hs he]
  have hrest : Multiset.map
      (fun p => cubieFacelets
        (act axis sign (rotPosInv axis e) (faceMappingInv axis e) cub p))
      ((allPositions : Multiset Pos).filter (fun p => ¬ getC p axis = sign))
      = Multiset.map (fun p => cubieFacelets (cub p))
        ((allPositions : Multiset Pos).filter (fun p => ¬ getC p axis = sign)) := by
    refine Multiset.map_congr rfl ?_
    intro p hp
    have hq : ¬ getC p axis = sign := (Multiset.mem_filter.mp hp).2
    show cubieFacelets (if getC p axis = sign then _ else _) = _
    rw [if_neg hq]
  rw [hplane, hrest]

/-- A valid `rotate_face` call preserves well-formedness. -/
theorem rf_WF (m : CubeModel) (face d : Int) (hf : face ∈ validFaces)
    (hd : d = 1 ∨ d = -1) (ha : m.animating = false) (hwf : WF m) :
    WF (rf m face d) := by
  obtain ⟨axis, sign, hfa, haxis, hs⟩ := face_axes_of_mem face hf
  have he : d * sign = 1 ∨ d * sign = -1 := by
    rcases hd with rfl | rfl <;> rcases hs with rfl | rfl <;> norm_num
  have e1 : (rf m face d).cubies = rotStep axis sign (d * sign) m.cubies := by
    rw [rf, rotate_face_valid m face d axis sign ha hfa]
  rw [WF, e1]
  exact rotStep_WF axis sign (d * sign) haxis he m.cubies hwf

/-- Any non-animating `rotate_face` call (valid face or not) appends the
attempted move to the history. -/
theorem rf_history (m : CubeModel) (face d : Int) (ha : m.animating = false) :
    (rf m face d).history = m.history ++ [(face, d)] := by
  rw [rf, rotate_face, ha]
  cases hfa : FACE_AXES face with
  | none => rfl
  | some v => obtain ⟨axis, sign⟩ := v; rfl

/-- A move sequence leaves `animating` untouched. -/
theorem applyMoves_animating (moves : List (Int × Int)) :
    ∀ m : CubeModel, (applyMoves m moves).animating = m.animating := by
  induction moves with
  | nil => intro m; rfl
  | cons mv rest ih =>
    intro m
    exact (ih (rf m mv.1 mv.2)).trans (rf_animating m mv.1 mv.2)

/-- A non-animating move sequence appends itself to the history. -/
theorem applyMoves_history (moves : List (Int × Int)) :
    ∀ m : CubeModel, m.animating = false →
      (applyMoves m moves).history = m.history ++ moves := by
  induction moves with
  | nil => intro m _; exact (List.append_nil m.history).symm
  | cons mv rest ih =>
    intro m ha
    have ha1 : (rf m mv.1 mv.2).animating = false :=
      (rf_animating m mv.1 mv.2).trans ha
    show (applyMoves (rf m mv.1 mv.2) rest).history = m.history ++ (mv :: rest)
    rw [ih (rf m mv.1 mv.2) ha1, rf_history m mv.1 mv.2 ha]
    simp

/-- A valid non-animating move sequence preserves well-formedness. -/
theorem applyMoves_WF (moves : List (Int × Int)) :
    ∀ m : CubeModel,
      (∀ mv ∈ moves, mv.1 ∈ validFaces ∧ (mv.2 = 1 ∨ mv.2 = -1)) →
      m.animating = false → WF m → WF (applyMoves m moves) := by
  induction moves with
  | nil => intro m _ _ hwf; exact hwf
  | cons mv rest ih =>
    intro m hv ha hwf
    have hmv := hv mv (List.mem_cons_self mv rest)
    show WF (applyMoves (rf m mv.1 mv.2) rest)
    exact ih (rf m mv.1 mv.2)
      (fun mv2 h2 => hv mv2 (List.mem_cons_of_mem _ h2))
      ((rf_animating m mv.1 mv.2).trans ha)
      (rf_WF m mv.1 mv.2 hmv.1 hmv.2 ha hwf)

/-- A valid `rotate_face` call preserves the facelet multiset. -/
theorem facelets_rf (m : CubeModel) (face d : Int) (hf : face ∈ validFaces)
    (hd : d = 1 ∨ d = -1) (ha : m.animating = false) (hwf : WF m) :
    facelets (rf m face d) = facelets m := by
  obtain ⟨axis, sign, hfa, haxis, hs⟩ := face_axes_of_mem face hf
  have he : d * sign = 1 ∨ d * sign = -1 := by
    rcases hd with rfl | rfl <;> rcases hs with rfl | rfl <;> norm_num
  have e1 : (rf m face d).cubies = rotStep axis sign (d * sign) m.cubies := by
    rw [rf, rotate_face_valid m face d axis sign ha hfa]
  rw [facelets, facelets, e1]
  exact faceletsOf_rotStep axis sign (d * sign) haxis hs he m.cubies hwf

/-- A valid non-animating move sequence preserves the facelet multiset. -/
theorem applyMoves_facelets (moves : List (Int × Int)) :
    ∀ m : CubeModel,
      (∀ mv ∈ moves, mv.1 ∈ validFaces ∧ (mv.2 = 1 ∨ mv.2 = -1)) →
      m.animating = false → WF m → facelets (applyMoves m moves) = facelets m := by
  induction moves with
  | nil => intro m _ _ _; rfl
  | cons mv rest ih =>
    intro m hv ha hwf
    have hmv := hv mv (List.mem_cons_self mv rest)
    show facelets (applyMoves (rf m mv.1 mv.2) rest) = facelets m
    rw [ih (rf m mv.1 mv.2)
      (fun mv2 h2 => hv mv2 (List.mem_cons_of_mem _ h2))
      ((rf_animating m mv.1 mv.2).trans ha)
      (rf_WF m mv.1 mv.2 hmv.1 hmv.2 ha hwf)]
    exact facelets_rf m mv.1 mv.2 hmv.1 hmv.2 ha hwf

/-- Claim C3: for every finite sequence of valid `rotate_face` calls
(faces in {0..5}, directions in {+1,-1}) applied to a freshly created
cube, the multiset of colors over all 54 visible facelets equals the
solved cube's multiset, with exactly 9 facelets of each of the six
colors. -/
theorem claim_C3 (moves : List (Int × Int))
    (hv : ∀ mv ∈ moves, mv.1 ∈ validFaces ∧ (mv.2 = 1 ∨ mv.2 = -1)) :
    facelets (applyMoves CubeModel.initial moves) = facelets CubeModel.initial ∧
    ∀ c, c < 6 →
      Multiset.count c (facelets (applyMoves CubeModel.initial moves)) = 9 := by
  have h1 := applyMoves_facelets moves CubeModel.initial hv rfl WF_initial
  refine ⟨h1, ?_⟩
  intro c hc
  rw [h1]
  interval_cases c <;> decide

theorem claim_C3_witness :
    facelets (applyMoves CubeModel.initial [(0, 1), (2, -1)])
        = facelets CubeModel.initial ∧
      ∀ c, c < 6 →
        Multiset.count c
          (facelets (applyMoves CubeModel.initial [(0, 1), (2, -1)])) = 9 :=
  claim_C3 [(0, 1), (2, -1)] (by decide)

/-- Appending move sequences composes. -/
theorem applyMoves_append (m : CubeModel) (A B : List (Int × Int)) :
    applyMoves m (A ++ B) = applyMoves (applyMoves m A) B := by
  rw [applyMoves, applyMoves, applyMoves, List.foldl_append]

/-- Model-level inverse: a valid rotation followed by its negated
direction restores the cubie mapping. -/
theorem rf_pair (m : CubeModel) (face d : Int) (hf : face ∈ validFaces)
    (hd : d = 1 ∨ d = -1) (ha : m.animating = false) (hwf : WF m) :
    (rf (rf m face d) face (-d)).cubies = m.cubies := by
  obtain ⟨axis, sign, hfa, haxis, hs⟩ := face_axes_of_mem face hf
  have he : d * sign = 1 ∨ d * sign = -1 := by
    rcases hd with rfl | rfl <;> rcases hs with rfl | rfl <;> norm_num
  have a1 : (rf m face d).animating = false := (rf_animating m face d).trans ha
  have e1 : (rf m face d).cubies = rotStep axis sign (d * sign) m.cubies := by
    rw [rf, rotate_face_valid m face d axis sign ha hfa]
  have e2 : (rf (rf m face d) face (-d)).cubies
      = rotStep axis sign (-(d * sign)) ((rf m face d).cubies) := by
    rw [rf, rotate_face_valid _ face (-d) axis sign a1 hfa]
    norm_num
  rw [e2, e1]
  exact rotStep_pair axis sign (d * sign) haxis he m.cubies hwf

/-- Round-trip: applying a valid move sequence and then its reversed,
direction-negated inverse restores the cubie mapping. -/
theorem roundtrip (moves : List (Int × Int)) :
    ∀ m : CubeModel, WF m → m.animating = false →
      (∀ mv ∈ moves, mv.1 ∈ validFaces ∧ (mv.2 = 1 ∨ mv.2 = -1)) →
      (applyMoves (applyMoves m moves)
        (moves.reverse.map fun mv => (mv.1, -mv.2))).cubies = m.cubies := by
  induction moves with
  | nil => intro m _ _ _; rfl
  | cons mv rest ih =>
    intro m hwf ha hv
    have hmv := hv mv (List.mem_cons_self mv rest)
    have hrest : ∀ mv2 ∈ rest, mv2.1 ∈ validFaces ∧ (mv2.2 = 1 ∨ mv2.2 = -1) :=
      fun mv2 h2 => hv mv2 (List.mem_cons_of_mem _ h2)
    have hwf1 : WF (rf m mv.1 mv.2) := rf_WF m mv.1 mv.2 hmv.1 hmv.2 ha hwf
    have ha1 : (rf m mv.1 mv.2).animating = false :=
      (rf_animating m mv.1 mv.2).trans ha
    have IH := ih (rf m mv.1 mv.2) hwf1 ha1 hrest
    show (applyMoves (applyMoves (rf m mv.1 mv.2) rest)
      ((mv :: rest).reverse.map fun mv => (mv.1, -mv.2))).cubies = m.cubies
    rw [List.reverse_cons, List.map_append, applyMoves_append]
    show (rf (applyMoves (applyMoves (rf m mv.1 mv.2) rest)
      (rest.reverse.map fun mv => (mv.1, -mv.2))) mv.1 (-mv.2)).cubies = m.cubies
    have hYa : (applyMoves (applyMoves (rf m mv.1 mv.2) rest)
        (rest.reverse.map fun mv => (mv.1, -mv.2))).animating
        = (rf m mv.1 mv.2).animating := by
      rw [applyMoves_animating, applyMoves_animating]
    rw [rf_cubies_congr _ (rf m mv.1 mv.2) mv.1 (-mv.2) IH hYa]
    exact rf_pair m mv.1 mv.2 hmv.1 hmv.2 ha hwf

/-- Claim C4: starting from a freshly created cube, after any fixed valid
move sequence, `get_solution()` returns the recorded history reversed with
each direction negated, and applying that returned sequence via
`rotate_face` restores the position-to-cubie mapping to the solved
state. -/
theorem claim_C4 (moves : List (Int × Int))
    (hv : ∀ mv ∈ moves, mv.1 ∈ validFaces ∧ (mv.2 = 1 ∨ mv.2 = -1)) :
    get_solution (applyMoves CubeModel.initial moves)
        = moves.reverse.map (fun mv => (mv.1, -mv.2)) ∧
      (applyMoves (applyMoves CubeModel.initial moves)
        (get_solution (applyMoves CubeModel.initial moves))).cubies
        = CubeModel.initial.cubies := by
  have hhist : (applyMoves CubeModel.initial moves).history = moves := by
    rw [applyMoves_history moves CubeModel.initial rfl]
    exact List.nil_append moves
  have hsol : get_solution (applyMoves CubeModel.initial moves)
      = moves.reverse.map (fun mv => (mv.1, -mv.2)) := by
    rw [get_solution, hhist]
  refine ⟨hsol, ?_⟩
  rw [hsol]
  exact roundtrip moves CubeModel.initial WF_initial rfl hv

theorem claim_C4_witness :
    get_solution (applyMoves CubeModel.initial [(0, 1), (3, -1)])
        = [(0, 1), (3, -1)].reverse.map (fun mv => (mv.1, -mv.2)) ∧
      (applyMoves (applyMoves CubeModel.initial [(0, 1), (3, -1)])
        (get_solution (applyMoves CubeModel.initial [(0, 1), (3, -1)]))).cubies
        = CubeModel.initial.cubies :=
  claim_C4 [(0, 1), (3, -1)] (by decide)
